import Mathlib

/-
Verification of the simulation core in app/sim.py.

The program is embedded shallowly: Python dicts become insertion-ordered
association lists, floats become exact rationals, `math.sqrt` becomes an
abstract parameter `sq : ℚ → ℚ` (every structural fact proved here is
independent of the numeric value of the square root), and code that can
raise a Python exception returns `Except Err`.
-/

namespace Sim

/-- Exceptions that the Python code in app/sim.py can raise: the two
`IndexError`s of `QRangeStore`, `KeyError` from a dict subscript, and
`ZeroDivisionError` from division. -/
inductive Err where
  | invalidRange
  | notFound
  | keyError
  | zeroDivision
deriving DecidableEq

/-- A Python dict with `String` keys, modelled as an insertion-ordered
association list. -/
abbrev Dict (α : Type) := List (String × α)

/-- Dict subscript: the value stored at a key, if present. -/
def dlookup {α : Type} : Dict α → String → Option α
  | [], _ => none
  | (k, v) :: d, key => if k = key then some v else dlookup d key

/-- The keys of a dict, in insertion order. -/
def dkeys {α : Type} (d : Dict α) : List String :=
  d.map Prod.fst

/-- Python dict union `d1 | d2`: keys of `d1` keep their position but take
the value from `d2` when present there; keys only in `d2` are appended. -/
def dunion {α : Type} (d1 d2 : Dict α) : Dict α :=
  d1.map (fun p => (p.1, (dlookup d2 p.1).getD p.2)) ++
    d2.filter (fun p => (dlookup d1 p.1).isNone)

/-- Python dict assignment `d[key] = v`: update in place when the key is
present, append otherwise. -/
def dset {α : Type} (d : Dict α) (key : String) (v : α) : Dict α :=
  if (dlookup d key).isSome then
    d.map (fun p => if p.1 = key then (key, v) else p)
  else
    d ++ [(key, v)]

/-- Set inclusion of key lists (Python `set(l1) <= set(l2)`). -/
def subKeys (l1 l2 : List String) : Bool :=
  l1.all (fun k => l2.any (fun x => decide (x = k)))

/-- Set equality of key lists (Python `set(l1) == set(l2)`). -/
def eqKeys (l1 l2 : List String) : Bool :=
  subKeys l1 l2 && subKeys l2 l1

/-- `QRangeStore.__setitem__`: reject the insertion with `IndexError`
("Invalid Range.") unless `low < high`, otherwise append the record. -/
def setitem {α : Type} (s : List (ℚ × ℚ × α)) (low high : ℚ) (v : α) :
    Except Err (List (ℚ × ℚ × α)) :=
  if low < high then Except.ok (s ++ [(low, high, v)]) else Except.error Err.invalidRange

/-- Whether a record's half-open range `[low, high)` contains `key`. -/
def covers {α : Type} (key : ℚ) (r : ℚ × ℚ × α) : Bool :=
  decide (r.1 ≤ key ∧ key < r.2.1)

/-- `QRangeStore.__getitem__`: the values of all records whose range
contains `key`, in insertion order; `IndexError` ("Not found.") when there
are none. -/
def getitem {α : Type} (s : List (ℚ × ℚ × α)) (key : ℚ) : Except Err (List α) :=
  let ret := (s.filter (covers key)).map (fun r => r.2.2)
  if ret.isEmpty then Except.error Err.notFound else Except.ok ret

/-- The per-agent state dict of app/sim.py, with its eight fields. -/
structure AgentState where
  name : String
  time : ℚ
  time_step : ℚ
  x : ℚ
  y : ℚ
  vx : ℚ
  vy : ℚ
  m : ℚ
deriving DecidableEq

/-- `gravitational_constant = 6.67 * 10 ** -11`. -/
def gravitational_constant : ℚ := 667 / (10 ^ 13)

def planetId : String := "Planet"

def satelliteId : String := "Satellite"

def sunId : String := "Sun"

/-- The `init` dict of app/sim.py: three seeded bodies at time 0 with
time step 0.02. -/
def init : Dict AgentState :=
  [(planetId, ⟨"Earth", 0, 1/50, 0, 0, -1/100, 0, 1000⟩),
   (satelliteId, ⟨"Moon", 0, 1/50, 0, 5, 1/100, -1/100, 1000⟩),
   (sunId, ⟨"Sun", 0, 1/50, 10, 5/2, 0, 0, 10000⟩)]

/-- Python division, which raises `ZeroDivisionError` on a zero divisor. -/
def pydiv (a b : ℚ) : Except Err ℚ :=
  if b = 0 then Except.error Err.zeroDivision else Except.ok (a / b)

/-- One iteration of the force loop of `propagate`: the contribution of one
other body to `(force_x, force_y)`, with the divisions checked exactly as
Python would evaluate them. -/
def bodyForce (sq : ℚ → ℚ) (mass x y : ℚ) (body : AgentState) : Except Err (ℚ × ℚ) :=
  let dx := body.x - x
  let dy := body.y - y
  let distance := sq (dx * dx + dy * dy)
  match pydiv (gravitational_constant * mass * body.m) distance with
  | Except.error e => Except.error e
  | Except.ok fm =>
    match pydiv (fm * distance * dx) distance, pydiv (fm * distance * dy) distance with
    | Except.ok fx, Except.ok fy => Except.ok (fx, fy)
    | Except.error e, _ => Except.error e
    | _, Except.error e => Except.error e

/-- The accumulation loop `for ID, body in universe.items()` of `propagate`,
skipping the propagated agent itself. -/
def forceLoop (sq : ℚ → ℚ) (agentId : String) (mass x y : ℚ) :
    List (String × AgentState) → ℚ → ℚ → Except Err (ℚ × ℚ)
  | [], fx, fy => Except.ok (fx, fy)
  | (bid, body) :: rest, fx, fy =>
    if bid = agentId then forceLoop sq agentId mass x y rest fx fy
    else
      match bodyForce sq mass x y body with
      | Except.error e => Except.error e
      | Except.ok (gx, gy) => forceLoop sq agentId mass x y rest (fx + gx) (fy + gy)

/-- `propagate(agentId, universe)` from app/sim.py: sum the pairwise force
contributions, divide by the mass to get the acceleration, apply the
kinematic update, and return the new state with `time_step` set to the
sentinel `1.0`. -/
def propagate (sq : ℚ → ℚ) (agentId : String) (uni : Dict AgentState) :
    Except Err AgentState :=
  match dlookup uni agentId with
  | none => Except.error Err.keyError
  | some state =>
    match forceLoop sq agentId state.m state.x state.y uni 0 0 with
    | Except.error e => Except.error e
    | Except.ok (fx, fy) =>
      match pydiv fx state.m, pydiv fy state.m with
      | Except.ok ax, Except.ok ay =>
        Except.ok ⟨state.name, state.time + state.time_step, 1,
          state.x + state.vx * state.time_step + (1/2) * ax * state.time_step ^ 2,
          state.y + state.vy * state.time_step + (1/2) * ay * state.time_step ^ 2,
          state.vx + ax * state.time_step,
          state.vy + ay * state.time_step,
          state.m⟩
      | Except.error e, _ => Except.error e
      | _, Except.error e => Except.error e

/-- `reduce(__or__, ds, {})`: left-to-right dict union starting from the
empty dict. -/
def merge {α : Type} (ds : List (Dict α)) : Dict α :=
  ds.foldl dunion []

/-- `read(t)` from app/sim.py: query the store, treating `IndexError` as an
empty result, and merge the returned values. -/
def read (s : List (ℚ × ℚ × Dict AgentState)) (t : ℚ) : Dict AgentState :=
  match getitem s t with
  | Except.ok data => merge data
  | Except.error _ => merge []

/-- The record list of the global `QRangeStore`. -/
abbrev Store := List (ℚ × ℚ × Dict AgentState)

/-- The mutable state of the simulator: the store and the per-agent time
cursor dict `times`. -/
structure SchedState where
  store : Store
  times : Dict ℚ
deriving DecidableEq

/-- The lookback `0.001` subtracted from a cursor before querying. -/
def epsilon : ℚ := 1 / 1000

/-- One iteration of the inner scheduler loop for one agent: read a
snapshot at `t - 0.001`; when its key set equals the key set of `init`,
propagate the agent, insert the new interval, and advance the cursor. -/
def tick (sq : ℚ → ℚ) (st : SchedState) (agentId : String) : Except Err SchedState :=
  match dlookup st.times agentId with
  | none => Except.error Err.keyError
  | some t =>
    let uni := read st.store (t - epsilon)
    if eqKeys (dkeys uni) (dkeys init) then
      match propagate sq agentId uni with
      | Except.error e => Except.error e
      | Except.ok newState =>
        match setitem st.store t newState.time [(agentId, newState)] with
        | Except.error e => Except.error e
        | Except.ok store2 => Except.ok ⟨store2, dset st.times agentId newState.time⟩
    else Except.ok st

/-- The state right after seeding: the store holds the single record
`(-999999999, 0) -> init` and every cursor sits at its seed time. -/
def initState : SchedState :=
  ⟨[((-999999999 : ℚ), 0, init)], init.map (fun p => (p.1, p.2.time))⟩

/-- The fixed agent enumeration order of the scheduler (`for agentId in init`). -/
def agents : List String := dkeys init

/-- Run a sequence of ticks from a given state, stopping at the first
uncaught exception. -/
def runTicksAux (sq : ℚ → ℚ) : SchedState → List String → Except Err SchedState
  | st, [] => Except.ok st
  | st, a :: l =>
    match tick sq st a with
    | Except.error e => Except.error e
    | Except.ok st2 => runTicksAux sq st2 l

/-- Run a sequence of ticks from the seeded initial state. -/
def runTicks (sq : ℚ → ℚ) (l : List String) : Except Err SchedState :=
  runTicksAux sq initState l

/-- Run `n` scheduling passes (`for _ in range(n): for agentId in init: ...`)
from the seeded initial state. -/
def runPasses (sq : ℚ → ℚ) : Nat → Except Err SchedState
  | 0 => Except.ok initState
  | n + 1 =>
    match runPasses sq n with
    | Except.error e => Except.error e
    | Except.ok st => runTicksAux sq st agents

/-- All states stored for agent `a`, in store (= insertion) order. -/
def aStates (s : Store) (a : String) : List AgentState :=
  s.filterMap (fun r => dlookup r.2.2 a)

/-- Whether a record's value dict contains agent `a`. -/
def hasAgent (a : String) (r : ℚ × ℚ × Dict AgentState) : Bool :=
  (dlookup r.2.2 a).isSome

/-- All records whose value dict contains agent `a`, in store order. -/
def aRecords (s : Store) (a : String) : Store :=
  s.filter (hasAgent a)

/-- The last element of a list, if any. -/
def lastOf? {α : Type} : List α → Option α
  | [] => none
  | x :: l =>
    match lastOf? l with
    | none => some x
    | some y => some y

/-- The last non-`none` value of `f` over a list, if any. -/
def lastSome? {α β : Type} (f : α → Option β) : List α → Option β
  | [] => none
  | x :: l =>
    match lastSome? f l with
    | none => f x
    | some v => some v

/-- The committed times of one agent after `n` commits: the configured step
`0.02` once, then the sentinel step `1.0` each time. -/
def commitTimes (n : Nat) : List ℚ :=
  (List.range n).map (fun i : Nat => 1/50 + (i : ℚ))

/-- An agent's cursor after `n` commits. -/
def cursorAt : Nat → ℚ
  | 0 => 0
  | n + 1 => 1/50 + (n : ℚ)

/-- Specification-side reading of the query contract: the values of exactly
the stored records `(low, high, value)` with `low ≤ p < high`, in the order
the records occur in the store (= insertion order). -/
def coveringValues {α : Type} (s : List (ℚ × ℚ × α)) (p : ℚ) : List α :=
  s.filterMap (fun r => if r.1 ≤ p ∧ p < r.2.1 then some r.2.2 else none)

/-- The store after inserting `[0, 3) -> "A"` into an empty store. -/
def demoA : List (ℚ × ℚ × String) := [(0, 3, "A")]

/-- The store after additionally inserting `[2, 4) -> "D"`. -/
def demoStore : List (ℚ × ℚ × String) := [(0, 3, "A"), (2, 4, "D")]

/-- Specification-side reading of the force law of §4.3 for one other body:
`force_magnitude = G * m_self * m_b / distance * distance`, components
`force_magnitude * dx / distance` and `force_magnitude * dy / distance`,
written with total field division. -/
def specForce (sq : ℚ → ℚ) (s body : AgentState) : ℚ × ℚ :=
  let dx := body.x - s.x
  let dy := body.y - s.y
  let distance := sq (dx * dx + dy * dy)
  let force_magnitude := gravitational_constant * s.m * body.m / distance * distance
  (force_magnitude * dx / distance, force_magnitude * dy / distance)

/-- The other agents of a snapshot, in snapshot order. -/
def others (a : String) (u : Dict AgentState) : List AgentState :=
  (u.filter (fun p => decide (p.1 ≠ a))).map Prod.snd

/-- Specification-side reading of the propagation contract: sum the forces
over every other agent, divide by `m` to get the acceleration, apply
`x' = x + vx*dt + 0.5*ax*dt²` (and the y analogue), `vx' = vx + ax*dt`,
`vy' = vy + ay*dt`, `time' = time + dt` with `dt` the input state's
`time_step`, and return the new state with `time_step = 1.0` and `name`,
`m` unchanged. -/
def specPropagate (sq : ℚ → ℚ) (a : String) (s : AgentState) (u : Dict AgentState) :
    AgentState :=
  let fx := ((others a u).map (fun b => (specForce sq s b).1)).sum
  let fy := ((others a u).map (fun b => (specForce sq s b).2)).sum
  let ax := fx / s.m
  let ay := fy / s.m
  ⟨s.name, s.time + s.time_step, 1,
    s.x + s.vx * s.time_step + (1/2) * ax * s.time_step ^ 2,
    s.y + s.vy * s.time_step + (1/2) * ay * s.time_step ^ 2,
    s.vx + ax * s.time_step,
    s.vy + ay * s.time_step,
    s.m⟩

/-- A concrete square-root stand-in used only to instantiate theorems at
concrete inputs; the scheduler facts proved here hold for every `sq`. -/
def sqId : ℚ → ℚ := fun q => q

/-- Per-agent part of the run invariant: agent `a` (with seed entry `ia`)
has completed some number `n` of commits; its cursor is `cursorAt n`, its
stored states carry the seed mass and name and the documented time pattern,
and the last record containing `a` covers the lookback point
`cursorAt n - epsilon`. -/
def AgentInv (st : SchedState) (a : String) (ia : AgentState) : Prop :=
  ∃ n : Nat, ∃ lr : ℚ × ℚ × Dict AgentState,
    dlookup st.times a = some (cursorAt n) ∧
    (aStates st.store a).map AgentState.time = 0 :: commitTimes n ∧
    (∀ s ∈ aStates st.store a, s.m = ia.m ∧ s.name = ia.name ∧
      s.time_step = (if s.time = 0 then 1/50 else 1)) ∧
    lastOf? (aRecords st.store a) = some lr ∧
    lr.1 ≤ cursorAt n - epsilon ∧ cursorAt n - epsilon < lr.2.1

/-- The run invariant maintained by every tick: the cursor dict has exactly
the seeded agents as keys, every stored value dict only mentions seeded
agents, every stored range is valid, and every seeded agent satisfies its
per-agent invariant. -/
def Inv (st : SchedState) : Prop :=
  dkeys st.times = dkeys init ∧
  (∀ r ∈ st.store, ∀ k ∈ dkeys r.2.2, k ∈ dkeys init) ∧
  (∀ r ∈ st.store, r.1 < r.2.1) ∧
  (∀ a ia, dlookup init a = some ia → AgentInv st a ia)

/-- An already-propagated Planet state used to build a blocked scheduler
state at a concrete input. -/
def p1 : AgentState := ⟨"Earth", 1/50, 1, 0, 0, 0, 0, 1000⟩

/-- A reachable-shaped state in which Planet has committed once and the
other two agents have not: Planet's next tick is blocked because the
snapshot at its lookback point only contains Planet. -/
def W1 : SchedState :=
  ⟨[((-999999999 : ℚ), 0, init), (0, 1/50, [(planetId, p1)])],
   [(planetId, 1/50), (satelliteId, 0), (sunId, 0)]⟩

/-- Two bodies placed at the same position, to exhibit the coincident-body
failure mode of `propagate`. -/
def coincA : AgentState := ⟨"A", 0, 1/50, 1, 2, 0, 0, 5⟩

/-- The second coincident body. -/
def coincB : AgentState := ⟨"B", 0, 1/50, 1, 2, 0, 0, 7⟩

/-- A snapshot holding the two coincident bodies. -/
def coincU : Dict AgentState := [("bodyA", coincA), ("bodyB", coincB)]

theorem dlookup_isSome_iff {α : Type} (d : Dict α) (k : String) :
    (dlookup d k).isSome ↔ k ∈ dkeys d := by
  induction d with
  | nil => simp [dlookup, dkeys]
  | cons p d ih =>
    obtain ⟨k1, v1⟩ := p
    by_cases h : k1 = k <;> simp [dlookup, dkeys, h, ih]
    exact fun hk => (h hk.symm).elim

theorem dlookup_append {α : Type} (d1 d2 : Dict α) (k : String) :
    dlookup (d1 ++ d2) k =
      match dlookup d1 k with
      | some v => some v
      | none => dlookup d2 k := by
  induction d1 with
  | nil => simp [dlookup]
  | cons p d ih =>
    obtain ⟨k1, v1⟩ := p
    by_cases h : k1 = k <;> simp [dlookup, h, ih]

theorem dlookup_map_update {α : Type} (d1 : Dict α) (g : String → α → α) (k : String) :
    dlookup (d1.map (fun p => (p.1, g p.1 p.2))) k = (dlookup d1 k).map (g k) := by
  induction d1 with
  | nil => simp [dlookup]
  | cons p d ih =>
    obtain ⟨k1, v1⟩ := p
    by_cases h : k1 = k
    · subst h; simp [dlookup]
    · simp [dlookup, h, ih]

theorem dlookup_filter_keyPred {α : Type} (d : Dict α) (q : String → Bool) (k : String) :
    dlookup (d.filter (fun p => q p.1)) k = if q k then dlookup d k else none := by
  induction d with
  | nil => simp [dlookup]
  | cons p d ih =>
    obtain ⟨k1, v1⟩ := p
    by_cases h : k1 = k
    · subst h
      by_cases hq : q k1 <;> simp [dlookup, hq, ih]
    · by_cases hq : q k1 <;> simp [dlookup, hq, ih, h]

theorem dlookup_dunion {α : Type} (d1 d2 : Dict α) (k : String) :
    dlookup (dunion d1 d2) k =
      match dlookup d2 k with
      | some v => some v
      | none => dlookup d1 k := by
  have hmap := dlookup_map_update d1 (fun key v => (dlookup d2 key).getD v) k
  have hfil := dlookup_filter_keyPred d2 (fun key => (dlookup d1 key).isNone) k
  rw [dunion, dlookup_append]
  cases h1 : dlookup d1 k with
  | some v1 =>
    rw [hmap, h1]
    cases h2 : dlookup d2 k <;> simp [h2]
  | none =>
    rw [hmap, h1, hfil, h1]
    cases h2 : dlookup d2 k <;> simp [h2]

theorem dlookup_foldl_dunion {α : Type} (ds : List (Dict α)) (acc : Dict α) (k : String) :
    dlookup (ds.foldl dunion acc) k =
      match lastSome? (fun d => dlookup d k) ds with
      | some v => some v
      | none => dlookup acc k := by
  induction ds generalizing acc with
  | nil => simp [lastSome?]
  | cons d ds ih =>
    simp only [List.foldl_cons, lastSome?]
    rw [ih]
    cases h : lastSome? (fun d => dlookup d k) ds with
    | some v => rfl
    | none => rw [dlookup_dunion]

theorem dlookup_merge {α : Type} (ds : List (Dict α)) (k : String) :
    dlookup (merge ds) k = lastSome? (fun d => dlookup d k) ds := by
  rw [merge, dlookup_foldl_dunion]
  cases h : lastSome? (fun d => dlookup d k) ds <;> simp [dlookup]

theorem lastSome?_some_mem {α β : Type} (f : α → Option β) (l : List α) (v : β)
    (h : lastSome? f l = some v) : ∃ x ∈ l, f x = some v := by
  induction l with
  | nil => simp [lastSome?] at h
  | cons x l ih =>
    rw [lastSome?] at h
    cases h2 : lastSome? f l with
    | some w =>
      rw [h2] at h
      obtain ⟨y, hy, hfy⟩ := ih (h2.trans (congrArg some (Option.some.inj h)))
      exact ⟨y, List.mem_cons_of_mem x hy, hfy⟩
    | none =>
      rw [h2] at h
      exact ⟨x, List.mem_cons_self x l, h⟩

theorem lastSome?_map {α β γ : Type} (g : α → β) (f : β → Option γ) (l : List α) :
    lastSome? f (l.map g) = lastSome? (fun x => f (g x)) l := by
  induction l with
  | nil => simp [lastSome?]
  | cons x l ih => rw [List.map_cons, lastSome?, lastSome?, ih]

theorem lastOf?_eq_none {α : Type} (l : List α) : lastOf? l = none ↔ l = [] := by
  cases l with
  | nil => simp [lastOf?]
  | cons x l =>
    rw [lastOf?]
    cases h : lastOf? l <;> simp

theorem lastOf?_mem {α : Type} (l : List α) (x : α) (h : lastOf? l = some x) : x ∈ l := by
  induction l with
  | nil => simp [lastOf?] at h
  | cons y l ih =>
    rw [lastOf?] at h
    cases h2 : lastOf? l with
    | some z =>
      rw [h2] at h
      exact List.mem_cons_of_mem y (ih (h2.trans (congrArg some (Option.some.inj h))))
    | none =>
      rw [h2] at h
      simp at h
      simp [h]

theorem lastOf?_concat {α : Type} (l : List α) (x : α) : lastOf? (l ++ [x]) = some x := by
  induction l with
  | nil => simp [lastOf?]
  | cons y l ih => rw [List.cons_append, lastOf?, ih]

theorem lastOf?_map {α β : Type} (f : α → β) (l : List α) :
    lastOf? (l.map f) = (lastOf? l).map f := by
  induction l with
  | nil => simp [lastOf?]
  | cons x l ih =>
    rw [List.map_cons, lastOf?, lastOf?, ih]
    cases h : lastOf? l <;> simp

theorem lastSome?_eq_bind_filter {α β : Type} (f : α → Option β) (l : List α) :
    lastSome? f l = (lastOf? (l.filter (fun x => (f x).isSome))).bind f := by
  induction l with
  | nil => simp [lastSome?, lastOf?]
  | cons x l ih =>
    rw [lastSome?, ih, List.filter_cons]
    cases hlast : lastOf? (l.filter (fun x => (f x).isSome)) with
    | some y =>
      have hy : y ∈ l.filter (fun x => (f x).isSome) := lastOf?_mem _ _ hlast
      have hysome : (f y).isSome = true := by simpa using List.of_mem_filter hy
      obtain ⟨w, hw⟩ := Option.isSome_iff_exists.mp hysome
      cases hx : f x with
      | some u => simp [hx, lastOf?, hlast, hw]
      | none => simp [hx, hlast, hw]
    | none =>
      have hemp : l.filter (fun x => (f x).isSome) = [] := (lastOf?_eq_none _).mp hlast
      cases hx : f x with
      | some u => simp [hx, hemp, lastOf?]
      | none => simp [hx, hemp, lastOf?]

theorem lastOf?_filter_of_last {α : Type} (l : List α) (p : α → Bool) (x : α)
    (h : lastOf? l = some x) (hp : p x = true) : lastOf? (l.filter p) = some x := by
  induction l with
  | nil => simp [lastOf?] at h
  | cons y l ih =>
    rw [lastOf?] at h
    cases h2 : lastOf? l with
    | some z =>
      rw [h2] at h
      have hzx : z = x := Option.some.inj h
      subst hzx
      have hres := ih h2
      rw [List.filter_cons]
      by_cases hy : p y = true
      · simp only [hy, if_true, lastOf?, hres]
      · simp [hy, hres]
    | none =>
      rw [h2] at h
      have hl : l = [] := (lastOf?_eq_none _).mp h2
      have hyx : y = x := Option.some.inj h
      subst hyx hl
      simp [List.filter_cons, hp, lastOf?]

theorem dlookup_map_setkey_self {α : Type} (d : Dict α) (k : String) (v : α)
    (h : (dlookup d k).isSome) :
    dlookup (d.map (fun p => if p.1 = k then (k, v) else p)) k = some v := by
  induction d with
  | nil => simp [dlookup] at h
  | cons p d ih =>
    obtain ⟨k1, v1⟩ := p
    by_cases hk : k1 = k
    · subst hk
      rw [List.map_cons]
      show dlookup ((if ((k1, v1) : String × α).1 = k1 then (k1, v) else (k1, v1)) ::
        d.map (fun p => if p.1 = k1 then (k1, v) else p)) k1 = some v
      rw [if_pos (rfl : ((k1, v1) : String × α).1 = k1)]
      rw [dlookup, if_pos rfl]
    · rw [dlookup, if_neg hk] at h
      rw [List.map_cons]
      show dlookup ((if ((k1, v1) : String × α).1 = k then (k, v) else (k1, v1)) ::
        d.map (fun p => if p.1 = k then (k, v) else p)) k = some v
      rw [if_neg (fun hc : ((k1, v1) : String × α).1 = k => hk hc)]
      rw [dlookup, if_neg hk]
      exact ih h

theorem dlookup_map_setkey_other {α : Type} (d : Dict α) (k k2 : String) (v : α)
    (hne : k2 ≠ k) :
    dlookup (d.map (fun p => if p.1 = k then (k, v) else p)) k2 = dlookup d k2 := by
  induction d with
  | nil => simp [dlookup]
  | cons p d ih =>
    obtain ⟨k1, v1⟩ := p
    by_cases hk : k1 = k
    · subst hk
      rw [List.map_cons]
      show dlookup ((if ((k1, v1) : String × α).1 = k1 then (k1, v) else (k1, v1)) ::
        d.map (fun p => if p.1 = k1 then (k1, v) else p)) k2 = dlookup ((k1, v1) :: d) k2
      rw [if_pos (rfl : ((k1, v1) : String × α).1 = k1)]
      rw [dlookup, dlookup, if_neg (fun hc : k1 = k2 => hne hc.symm)]
      rw [if_neg (fun hc : k1 = k2 => hne hc.symm)]
      exact ih
    · rw [List.map_cons]
      show dlookup ((if ((k1, v1) : String × α).1 = k then (k, v) else (k1, v1)) ::
        d.map (fun p => if p.1 = k then (k, v) else p)) k2 = dlookup ((k1, v1) :: d) k2
      rw [if_neg (fun hc : ((k1, v1) : String × α).1 = k => hk hc)]
      rw [dlookup, dlookup]
      by_cases hk2 : k1 = k2
      · simp [hk2]
      · rw [if_neg hk2, if_neg hk2]
        exact ih

theorem dlookup_dset_self {α : Type} (d : Dict α) (k : String) (v : α)
    (h : (dlookup d k).isSome) : dlookup (dset d k v) k = some v := by
  rw [dset, if_pos h]
  exact dlookup_map_setkey_self d k v h

theorem dlookup_dset_other {α : Type} (d : Dict α) (k k2 : String) (v : α)
    (hne : k2 ≠ k) : dlookup (dset d k v) k2 = dlookup d k2 := by
  rw [dset]
  by_cases h : (dlookup d k).isSome
  · rw [if_pos h]
    exact dlookup_map_setkey_other d k k2 v hne
  · rw [if_neg h, dlookup_append]
    cases hd : dlookup d k2 with
    | some w => simp
    | none =>
      show dlookup [(k, v)] k2 = none
      rw [dlookup, if_neg (fun hc : k = k2 => hne hc.symm), dlookup]

theorem dkeys_dset {α : Type} (d : Dict α) (k : String) (v : α)
    (h : (dlookup d k).isSome) : dkeys (dset d k v) = dkeys d := by
  rw [dset, if_pos h, dkeys, dkeys, List.map_map]
  apply List.map_congr_left
  intro p _
  by_cases hk : p.1 = k <;> simp [hk]

theorem subKeys_iff (l1 l2 : List String) :
    subKeys l1 l2 = true ↔ ∀ k ∈ l1, k ∈ l2 := by
  rw [subKeys, List.all_eq_true]
  constructor
  · intro h k hk
    have := h k hk
    rw [List.any_eq_true] at this
    obtain ⟨x, hx, hxk⟩ := this
    have hxk2 : x = k := of_decide_eq_true hxk
    exact hxk2 ▸ hx
  · intro h k hk
    rw [List.any_eq_true]
    exact ⟨k, h k hk, by simp⟩

theorem eqKeys_of_sub (l1 l2 : List String) (h : ∀ k ∈ l1, k ∈ l2) :
    eqKeys l1 l2 = subKeys l2 l1 := by
  rw [eqKeys, (subKeys_iff l1 l2).mpr h, Bool.true_and]

theorem read_eq_merge (s : Store) (t : ℚ) :
    read s t = merge ((s.filter (covers t)).map (fun r => r.2.2)) := by
  rw [read]
  cases h : getitem s t with
  | ok data =>
    simp only [getitem] at h
    split at h
    · cases h
    · cases h
      rfl
  | error e =>
    simp only [getitem] at h
    split at h
    · next hemp =>
        rw [List.isEmpty_iff] at hemp
        rw [hemp]
    · cases h

theorem dlookup_read (s : Store) (t : ℚ) (a : String) :
    dlookup (read s t) a =
      (lastOf? ((aRecords s a).filter (covers t))).bind (fun r => dlookup r.2.2 a) := by
  rw [read_eq_merge, dlookup_merge, lastSome?_map, lastSome?_eq_bind_filter]
  have hfil : (s.filter (covers t)).filter (fun r => ((fun r => dlookup r.2.2 a) r).isSome)
      = (aRecords s a).filter (covers t) := by
    rw [List.filter_filter, aRecords, List.filter_filter]
    apply List.filter_congr
    intro r _
    rw [hasAgent, Bool.and_comm]
  rw [hfil]

theorem mem_dkeys_read (s : Store) (t : ℚ) (k : String) (h : k ∈ dkeys (read s t)) :
    ∃ r ∈ s, k ∈ dkeys r.2.2 := by
  rw [← dlookup_isSome_iff] at h
  rw [read_eq_merge, dlookup_merge] at h
  obtain ⟨v, hv⟩ := Option.isSome_iff_exists.mp h
  obtain ⟨d, hd, hdv⟩ := lastSome?_some_mem _ _ _ hv
  rw [List.mem_map] at hd
  obtain ⟨r, hr, hrd⟩ := hd
  refine ⟨r, List.mem_of_mem_filter hr, ?_⟩
  rw [← dlookup_isSome_iff, hrd, hdv]
  rfl

theorem lastOf?_filterMap {α β : Type} (f : α → Option β) (l : List α) :
    lastOf? (l.filterMap f) = lastSome? f l := by
  induction l with
  | nil => simp [lastOf?, lastSome?]
  | cons x l ih =>
    rw [List.filterMap_cons, lastSome?]
    cases hx : f x with
    | none =>
      rw [ih]
      cases hls : lastSome? f l <;> simp [hx]
    | some v =>
      rw [lastOf?, ih]

theorem aStates_eq_bind (s : Store) (a : String) :
    lastOf? (aStates s a) = (lastOf? (aRecords s a)).bind (fun r => dlookup r.2.2 a) := by
  rw [aStates, lastOf?_filterMap, lastSome?_eq_bind_filter]
  have hfil : s.filter (fun r => ((fun r => dlookup r.2.2 a) r).isSome) = aRecords s a := by
    rw [aRecords]
    apply List.filter_congr
    intro r _
    rfl
  rw [hfil]

theorem commitTimes_succ (n : Nat) :
    commitTimes (n + 1) = commitTimes n ++ [1/50 + (n : ℚ)] := by
  rw [commitTimes, commitTimes, List.range_succ, List.map_append, List.map_singleton]

theorem lastOf?_commit (n : Nat) : lastOf? (0 :: commitTimes n) = some (cursorAt n) := by
  cases n with
  | zero => rfl
  | succ k =>
    rw [commitTimes_succ, ← List.cons_append, lastOf?_concat, cursorAt]

theorem cursorAt_pos (n : Nat) : 0 < cursorAt (n + 1) := by
  rw [cursorAt]
  have h0 : (0 : ℚ) ≤ (n : ℚ) := Nat.cast_nonneg n
  linarith

theorem cursorAt_lt_succ (n : Nat) : cursorAt n < cursorAt (n + 1) := by
  cases n with
  | zero => norm_num [cursorAt]
  | succ k =>
    rw [cursorAt, cursorAt]
    push_cast
    linarith

theorem cursorAt_step (n : Nat) :
    cursorAt n + (if cursorAt n = 0 then (1/50 : ℚ) else 1) = cursorAt (n + 1) := by
  cases n with
  | zero => norm_num [cursorAt]
  | succ k =>
    rw [if_neg (ne_of_gt (cursorAt_pos k))]
    rw [cursorAt, cursorAt]
    push_cast
    ring

theorem cursorAt_gap (n : Nat) : cursorAt n ≤ cursorAt (n + 1) - epsilon := by
  cases n with
  | zero => norm_num [cursorAt, epsilon]
  | succ k =>
    rw [cursorAt, cursorAt, epsilon]
    push_cast
    linarith

theorem cursorAt_eps_lt (n : Nat) : cursorAt n - epsilon < cursorAt n := by
  rw [epsilon]
  linarith

theorem chain_commitTimes (n : Nat) :
    List.Chain' (fun p q : ℚ => p < q) (0 :: commitTimes n) := by
  apply List.Pairwise.chain'
  rw [List.pairwise_cons]
  constructor
  · intro q hq
    rw [commitTimes, List.mem_map] at hq
    obtain ⟨i, _, hiq⟩ := hq
    rw [← hiq]
    have h0 : (0 : ℚ) ≤ (i : ℚ) := Nat.cast_nonneg i
    linarith
  · rw [commitTimes]
    apply List.Pairwise.map
    · intro i j hij
      have : (i : ℚ) < (j : ℚ) := by exact_mod_cast hij
      linarith
    · exact List.pairwise_lt_range n

theorem init_lookup_cases (a : String) (ia : AgentState)
    (h : dlookup init a = some ia) :
    (a = planetId ∧ ia = ⟨"Earth", 0, 1/50, 0, 0, -1/100, 0, 1000⟩) ∨
    (a = satelliteId ∧ ia = ⟨"Moon", 0, 1/50, 0, 5, 1/100, -1/100, 1000⟩) ∨
    (a = sunId ∧ ia = ⟨"Sun", 0, 1/50, 10, 5/2, 0, 0, 10000⟩) := by
  rw [init, dlookup] at h
  by_cases h1 : planetId = a
  · rw [if_pos h1] at h
    exact Or.inl ⟨h1.symm, (Option.some.inj h).symm⟩
  · rw [if_neg h1, dlookup] at h
    by_cases h2 : satelliteId = a
    · rw [if_pos h2] at h
      exact Or.inr (Or.inl ⟨h2.symm, (Option.some.inj h).symm⟩)
    · rw [if_neg h2, dlookup] at h
      by_cases h3 : sunId = a
      · rw [if_pos h3] at h
        exact Or.inr (Or.inr ⟨h3.symm, (Option.some.inj h).symm⟩)
      · rw [if_neg h3, dlookup] at h
        cases h

theorem init_seed_fields (a : String) (ia : AgentState) (h : dlookup init a = some ia) :
    ia.time = 0 ∧ ia.time_step = 1/50 ∧ ia.m ≠ 0 := by
  rcases init_lookup_cases a ia h with ⟨_, rfl⟩ | ⟨_, rfl⟩ | ⟨_, rfl⟩ <;> norm_num

theorem pydiv_ok (a b v : ℚ) (h : pydiv a b = Except.ok v) : b ≠ 0 ∧ v = a / b := by
  rw [pydiv] at h
  by_cases hb : b = 0
  · rw [if_pos hb] at h
    cases h
  · rw [if_neg hb] at h
    exact ⟨hb, (Except.ok.inj h).symm⟩

theorem pydiv_err (a b : ℚ) (e : Err) (h : pydiv a b = Except.error e) :
    e = Err.zeroDivision ∧ b = 0 := by
  rw [pydiv] at h
  by_cases hb : b = 0
  · rw [if_pos hb] at h
    exact ⟨(Except.error.inj h).symm, hb⟩
  · rw [if_neg hb] at h
    cases h

theorem bodyForce_err (sq : ℚ → ℚ) (mass x y : ℚ) (body : AgentState) (e : Err)
    (h : bodyForce sq mass x y body = Except.error e) : e = Err.zeroDivision := by
  simp only [bodyForce] at h
  generalize hd : sq ((body.x - x) * (body.x - x) + (body.y - y) * (body.y - y)) = d at h
  cases h1 : pydiv (gravitational_constant * mass * body.m) d with
  | error e1 =>
    rw [h1] at h
    cases h
    exact (pydiv_err _ _ _ h1).1
  | ok fm =>
    rw [h1] at h
    dsimp only at h
    cases h2 : pydiv (fm * d * (body.x - x)) d with
    | error e1 =>
      rw [h2] at h
      cases h3 : pydiv (fm * d * (body.y - y)) d with
      | error e2 =>
        rw [h3] at h
        cases h
        exact (pydiv_err _ _ _ h2).1
      | ok fy =>
        rw [h3] at h
        cases h
        exact (pydiv_err _ _ _ h2).1
    | ok fx =>
      rw [h2] at h
      cases h3 : pydiv (fm * d * (body.y - y)) d with
      | error e2 =>
        rw [h3] at h
        cases h
        exact (pydiv_err _ _ _ h3).1
      | ok fy =>
        rw [h3] at h
        cases h

theorem forceLoop_err (sq : ℚ → ℚ) (a : String) (mass x y : ℚ)
    (l : List (String × AgentState)) (fx fy : ℚ) (e : Err)
    (h : forceLoop sq a mass x y l fx fy = Except.error e) : e = Err.zeroDivision := by
  induction l generalizing fx fy with
  | nil => cases h
  | cons p rest ih =>
    obtain ⟨bid, body⟩ := p
    rw [forceLoop] at h
    by_cases hb : bid = a
    · rw [if_pos hb] at h
      exact ih _ _ h
    · rw [if_neg hb] at h
      cases hbf : bodyForce sq mass x y body with
      | error e1 =>
        rw [hbf] at h
        cases h
        exact bodyForce_err _ _ _ _ _ _ hbf
      | ok g =>
        obtain ⟨gx, gy⟩ := g
        rw [hbf] at h
        exact ih _ _ h

theorem propagate_none_eq (sq : ℚ → ℚ) (a : String) (u : Dict AgentState)
    (hs : dlookup u a = none) : propagate sq a u = Except.error Err.keyError := by
  rw [propagate, hs]

theorem propagate_some_eq (sq : ℚ → ℚ) (a : String) (u : Dict AgentState)
    (s : AgentState) (hs : dlookup u a = some s) :
    propagate sq a u =
      match forceLoop sq a s.m s.x s.y u 0 0 with
      | Except.error e => Except.error e
      | Except.ok (fx, fy) =>
        match pydiv fx s.m, pydiv fy s.m with
        | Except.ok ax, Except.ok ay =>
          Except.ok ⟨s.name, s.time + s.time_step, 1,
            s.x + s.vx * s.time_step + (1/2) * ax * s.time_step ^ 2,
            s.y + s.vy * s.time_step + (1/2) * ay * s.time_step ^ 2,
            s.vx + ax * s.time_step,
            s.vy + ay * s.time_step,
            s.m⟩
        | Except.error e, _ => Except.error e
        | _, Except.error e => Except.error e := by
  rw [propagate, hs]

theorem propagate_ok_fields (sq : ℚ → ℚ) (a : String) (u : Dict AgentState)
    (ns : AgentState) (h : propagate sq a u = Except.ok ns) :
    ∃ s, dlookup u a = some s ∧ ns.time = s.time + s.time_step ∧ ns.time_step = 1 ∧
      ns.m = s.m ∧ ns.name = s.name := by
  cases hl : dlookup u a with
  | none =>
    rw [propagate_none_eq sq a u hl] at h
    cases h
  | some s =>
    rw [propagate_some_eq sq a u s hl] at h
    refine ⟨s, rfl, ?_⟩
    cases hfl : forceLoop sq a s.m s.x s.y u 0 0 with
    | error e1 =>
      rw [hfl] at h
      cases h
    | ok g =>
      obtain ⟨fx, fy⟩ := g
      rw [hfl] at h
      dsimp only at h
      cases hax : pydiv fx s.m with
      | error e1 =>
        rw [hax] at h
        cases hay : pydiv fy s.m <;> rw [hay] at h <;> cases h
      | ok ax =>
        rw [hax] at h
        cases hay : pydiv fy s.m with
        | error e1 =>
          rw [hay] at h
          cases h
        | ok ay =>
          rw [hay] at h
          cases h
          exact ⟨rfl, rfl, rfl, rfl⟩

theorem propagate_err_of_some (sq : ℚ → ℚ) (a : String) (u : Dict AgentState)
    (s : AgentState) (e : Err) (hs : dlookup u a = some s)
    (h : propagate sq a u = Except.error e) : e = Err.zeroDivision := by
  rw [propagate_some_eq sq a u s hs] at h
  cases hfl : forceLoop sq a s.m s.x s.y u 0 0 with
  | error e1 =>
    rw [hfl] at h
    cases h
    exact forceLoop_err _ _ _ _ _ _ _ _ _ hfl
  | ok g =>
    obtain ⟨fx, fy⟩ := g
    rw [hfl] at h
    dsimp only at h
    cases hax : pydiv fx s.m with
    | error e1 =>
      rw [hax] at h
      cases hay : pydiv fy s.m <;> rw [hay] at h <;> cases h <;>
        exact (pydiv_err _ _ _ hax).1
    | ok ax =>
      rw [hax] at h
      cases hay : pydiv fy s.m with
      | error e1 =>
        rw [hay] at h
        cases h
        exact (pydiv_err _ _ _ hay).1
      | ok ay =>
        rw [hay] at h
        cases h

theorem dlookup_single_self {α : Type} (k : String) (v : α) : dlookup [(k, v)] k = some v := by
  rw [dlookup, if_pos rfl]

theorem dlookup_single_other {α : Type} (k k2 : String) (v : α) (h : ¬ k = k2) :
    dlookup [(k, v)] k2 = none := by
  rw [dlookup, if_neg h, dlookup]

theorem aStates_append (s : Store) (r : ℚ × ℚ × Dict AgentState) (a : String) :
    aStates (s ++ [r]) a =
      aStates s a ++ (match dlookup r.2.2 a with | some v => [v] | none => []) := by
  rw [aStates, aStates, List.filterMap_append]
  congr 1
  cases h : dlookup r.2.2 a <;> simp [List.filterMap_cons, h]

theorem aRecords_append (s : Store) (r : ℚ × ℚ × Dict AgentState) (a : String) :
    aRecords (s ++ [r]) a =
      aRecords s a ++ (if hasAgent a r then [r] else []) := by
  rw [aRecords, aRecords, List.filter_append]
  congr 1
  cases h : hasAgent a r <;> simp [List.filter_cons, h]

theorem mem_aStates (s : Store) (a : String) (x : AgentState) (h : x ∈ aStates s a) :
    ∃ r ∈ s, dlookup r.2.2 a = some x := by
  rw [aStates, List.mem_filterMap] at h
  exact h

theorem keys_read_sub (s : Store) (t : ℚ)
    (hsub : ∀ r ∈ s, ∀ k ∈ dkeys r.2.2, k ∈ dkeys init) :
    ∀ k ∈ dkeys (read s t), k ∈ dkeys init := by
  intro k hk
  obtain ⟨r, hr, hkr⟩ := mem_dkeys_read s t k hk
  exact hsub r hr k hkr

theorem dlookup_read_lastState (s : Store) (a : String) (t : ℚ)
    (lr : ℚ × ℚ × Dict AgentState) (hlast : lastOf? (aRecords s a) = some lr)
    (hcov : covers t lr = true) :
    dlookup (read s t) a = lastOf? (aStates s a) := by
  rw [dlookup_read, lastOf?_filter_of_last _ _ _ hlast hcov, aStates_eq_bind, hlast]

theorem cursorAt_inj (m n : Nat) (h : cursorAt m = cursorAt n) : m = n := by
  cases m with
  | zero =>
    cases n with
    | zero => rfl
    | succ k =>
      rw [cursorAt, cursorAt] at h
      have h0 : (0 : ℚ) ≤ (k : ℚ) := Nat.cast_nonneg k
      exact absurd h (by intro hc; linarith [hc])
  | succ j =>
    cases n with
    | zero =>
      rw [cursorAt, cursorAt] at h
      have h0 : (0 : ℚ) ≤ (j : ℚ) := Nat.cast_nonneg j
      exact absurd h (by intro hc; linarith [hc])
    | succ k =>
      rw [cursorAt, cursorAt] at h
      have hjk : (j : ℚ) = (k : ℚ) := by linarith
      exact congrArg Nat.succ (Nat.cast_inj.mp hjk)

theorem tick_none_eq (sq : ℚ → ℚ) (st : SchedState) (a : String)
    (ht : dlookup st.times a = none) : tick sq st a = Except.error Err.keyError := by
  rw [tick, ht]

theorem tick_some_eq (sq : ℚ → ℚ) (st : SchedState) (a : String) (t : ℚ)
    (ht : dlookup st.times a = some t) :
    tick sq st a =
      (if eqKeys (dkeys (read st.store (t - epsilon))) (dkeys init) then
        match propagate sq a (read st.store (t - epsilon)) with
        | Except.error e => Except.error e
        | Except.ok newState =>
          match setitem st.store t newState.time [(a, newState)] with
          | Except.error e => Except.error e
          | Except.ok store2 => Except.ok ⟨store2, dset st.times a newState.time⟩
      else Except.ok st) := by
  rw [tick, ht]

theorem setitem_ok_eq {α : Type} (s : List (ℚ × ℚ × α)) (low high : ℚ) (v : α)
    (h : low < high) : setitem s low high v = Except.ok (s ++ [(low, high, v)]) := by
  rw [setitem, if_pos h]

theorem inv_commit (st : SchedState) (a : String) (ia : AgentState) (n : Nat)
    (ns : AgentState) (hInv : Inv st) (hiaeq : dlookup init a = some ia)
    (hcur : dlookup st.times a = some (cursorAt n))
    (hnst : ns.time = cursorAt (n + 1)) (hnsstep : ns.time_step = 1)
    (hnsm : ns.m = ia.m) (hnsname : ns.name = ia.name) :
    Inv ⟨st.store ++ [(cursorAt n, ns.time, [(a, ns)])], dset st.times a ns.time⟩ := by
  obtain ⟨htimes, hsub, hrange, hagent⟩ := hInv
  have hasome : (dlookup st.times a).isSome := by rw [hcur]; rfl
  have hamem : a ∈ dkeys init := by
    rw [← dlookup_isSome_iff, hiaeq]
    rfl
  refine ⟨?_, ?_, ?_, ?_⟩
  · show dkeys (dset st.times a ns.time) = dkeys init
    rw [dkeys_dset st.times a ns.time hasome, htimes]
  · intro r hr k hk
    rw [List.mem_append] at hr
    cases hr with
    | inl hr => exact hsub r hr k hk
    | inr hr =>
      rw [List.mem_singleton] at hr
      subst hr
      have hka : k = a := by simpa [dkeys] using hk
      subst hka
      exact hamem
  · intro r hr
    rw [List.mem_append] at hr
    cases hr with
    | inl hr => exact hrange r hr
    | inr hr =>
      rw [List.mem_singleton] at hr
      subst hr
      show cursorAt n < ns.time
      rw [hnst]
      exact cursorAt_lt_succ n
  · intro b ib hib
    by_cases hab : b = a
    · subst hab
      have hibia : ib = ia := Option.some.inj (hib.symm.trans hiaeq)
      subst hibia
      obtain ⟨n2, lr, hcur2, htEq, hflds, hlast, hc1, hc2⟩ := hagent b ib hib
      have hn2 : n = n2 := cursorAt_inj n n2 (Option.some.inj (hcur.symm.trans hcur2))
      subst hn2
      refine ⟨n + 1, (cursorAt n, ns.time, [(b, ns)]), ?_, ?_, ?_, ?_, ?_, ?_⟩
      · show dlookup (dset st.times b ns.time) b = some (cursorAt (n + 1))
        rw [dlookup_dset_self st.times b ns.time hasome, hnst]
      · show (aStates (st.store ++ [(cursorAt n, ns.time, [(b, ns)])]) b).map
          AgentState.time = 0 :: commitTimes (n + 1)
        rw [aStates_append, dlookup_single_self]
        rw [List.map_append, htEq, commitTimes_succ, List.map_singleton, hnst]
        rfl
      · intro s hs
        rw [aStates_append, dlookup_single_self] at hs
        rw [List.mem_append] at hs
        cases hs with
        | inl hs => exact hflds s hs
        | inr hs =>
          rw [List.mem_singleton] at hs
          subst hs
          refine ⟨hnsm, hnsname, ?_⟩
          rw [hnst, if_neg (ne_of_gt (cursorAt_pos n))]
          exact hnsstep
      · show lastOf? (aRecords (st.store ++ [(cursorAt n, ns.time, [(b, ns)])]) b) =
          some (cursorAt n, ns.time, [(b, ns)])
        rw [aRecords_append]
        have hhas : hasAgent b (cursorAt n, ns.time, [(b, ns)]) = true := by
          rw [hasAgent, dlookup_single_self]
          rfl
        rw [if_pos hhas, lastOf?_concat]
      · exact cursorAt_gap n
      · show cursorAt (n + 1) - epsilon < ns.time
        rw [hnst]
        exact cursorAt_eps_lt (n + 1)
    · obtain ⟨n2, lr, hcur2, htEq, hflds, hlast, hc1, hc2⟩ := hagent b ib hib
      have hnone : dlookup [(a, ns)] b = none :=
        dlookup_single_other a b ns (fun hc => hab hc.symm)
      refine ⟨n2, lr, ?_, ?_, ?_, ?_, hc1, hc2⟩
      · rw [dlookup_dset_other st.times a b ns.time hab, hcur2]
      · rw [aStates_append, hnone]
        dsimp only
        rw [List.append_nil]
        exact htEq
      · intro s hs
        rw [aStates_append, hnone] at hs
        dsimp only at hs
        rw [List.append_nil] at hs
        exact hflds s hs
      · rw [aRecords_append]
        have hhasf : hasAgent b (cursorAt n, ns.time, [(a, ns)]) = false := by
          rw [hasAgent, hnone]
          rfl
        rw [if_neg (by rw [hhasf]; exact Bool.false_ne_true), List.append_nil]
        exact hlast

theorem tick_cases (sq : ℚ → ℚ) (st : SchedState) (a : String) (hInv : Inv st) :
    (∃ st2, tick sq st a = Except.ok st2 ∧ Inv st2) ∨
    tick sq st a = Except.error Err.zeroDivision ∨
    (tick sq st a = Except.error Err.keyError ∧ dlookup st.times a = none) := by
  obtain ⟨htimes, hsub, hrange, hagent⟩ := hInv
  cases ht : dlookup st.times a with
  | none => exact Or.inr (Or.inr ⟨tick_none_eq sq st a ht, rfl⟩)
  | some t =>
    have hamem : a ∈ dkeys init := by
      rw [← htimes, ← dlookup_isSome_iff, ht]
      rfl
    obtain ⟨ia, hiaeq⟩ :=
      Option.isSome_iff_exists.mp ((dlookup_isSome_iff init a).mpr hamem)
    obtain ⟨n, lr, hcur, htEq, hflds, hlast, hc1, hc2⟩ := hagent a ia hiaeq
    have ht' : t = cursorAt n := Option.some.inj (ht.symm.trans hcur)
    subst ht'
    have hcovb : covers (cursorAt n - epsilon) lr = true := by
      rw [covers]
      exact decide_eq_true ⟨hc1, hc2⟩
    have hread : dlookup (read st.store (cursorAt n - epsilon)) a =
        lastOf? (aStates st.store a) :=
      dlookup_read_lastState st.store a (cursorAt n - epsilon) lr hlast hcovb
    have hlastSt : ∃ sl, lastOf? (aStates st.store a) = some sl ∧ sl.time = cursorAt n := by
      have hmap := lastOf?_map AgentState.time (aStates st.store a)
      rw [htEq, lastOf?_commit] at hmap
      cases hsl : lastOf? (aStates st.store a) with
      | none =>
        rw [hsl] at hmap
        cases hmap
      | some sl =>
        rw [hsl] at hmap
        exact ⟨sl, rfl, (Option.some.inj hmap).symm⟩
    obtain ⟨sl, hsl, hsltime⟩ := hlastSt
    obtain ⟨hslm, hslname, hslstep⟩ := hflds sl (lastOf?_mem _ _ hsl)
    have huni : dlookup (read st.store (cursorAt n - epsilon)) a = some sl := by
      rw [hread, hsl]
    rw [tick_some_eq sq st a (cursorAt n) ht]
    by_cases hgate :
        eqKeys (dkeys (read st.store (cursorAt n - epsilon))) (dkeys init) = true
    · rw [if_pos hgate]
      cases hp : propagate sq a (read st.store (cursorAt n - epsilon)) with
      | error e =>
        have he := propagate_err_of_some sq a _ sl e huni hp
        subst he
        exact Or.inr (Or.inl rfl)
      | ok ns =>
        obtain ⟨s0, hs0, hntime, hnstep, hnm, hnname⟩ := propagate_ok_fields sq a _ ns hp
        rw [huni] at hs0
        have heq0 : s0 = sl := (Option.some.inj hs0).symm
        subst heq0
        have hnst : ns.time = cursorAt (n + 1) := by
          rw [hntime, hslstep, hsltime, cursorAt_step]
        have hlt : cursorAt n < ns.time := by
          rw [hnst]
          exact cursorAt_lt_succ n
        left
        refine ⟨⟨st.store ++ [(cursorAt n, ns.time, [(a, ns)])], dset st.times a ns.time⟩,
          ?_, ?_⟩
        · dsimp only
          rw [setitem_ok_eq st.store (cursorAt n) ns.time [(a, ns)] hlt]
        · exact inv_commit st a ia n ns ⟨htimes, hsub, hrange, hagent⟩ hiaeq hcur hnst
            hnstep (hnm.trans hslm) (hnname.trans hslname)
    · rw [if_neg hgate]
      exact Or.inl ⟨st, rfl, ⟨htimes, hsub, hrange, hagent⟩⟩

theorem dlookup_map_val {α β : Type} (d : Dict α) (g : String → α → β) (k : String) :
    dlookup (d.map (fun p => (p.1, g p.1 p.2))) k = (dlookup d k).map (g k) := by
  induction d with
  | nil => simp [dlookup]
  | cons p d ih =>
    obtain ⟨k1, v1⟩ := p
    by_cases h : k1 = k
    · subst h
      simp [dlookup]
    · simp [dlookup, h, ih]

theorem aStates_singleton (r : ℚ × ℚ × Dict AgentState) (a : String) :
    aStates [r] a = match dlookup r.2.2 a with | some v => [v] | none => [] := by
  rw [aStates, List.filterMap_cons]
  cases h : dlookup r.2.2 a <;> simp [h]

theorem aRecords_singleton (r : ℚ × ℚ × Dict AgentState) (a : String) :
    aRecords [r] a = if hasAgent a r then [r] else [] := by
  rw [aRecords, List.filter_cons]
  cases h : hasAgent a r <;> simp [h]

theorem inv_init : Inv initState := by
  refine ⟨rfl, ?_, ?_, ?_⟩
  · intro r hr k hk
    rw [show initState.store = [((-999999999 : ℚ), 0, init)] from rfl,
      List.mem_singleton] at hr
    subst hr
    exact hk
  · intro r hr
    rw [show initState.store = [((-999999999 : ℚ), 0, init)] from rfl,
      List.mem_singleton] at hr
    subst hr
    norm_num
  · intro a ia hiaeq
    obtain ⟨hia0, hiastep, _⟩ := init_seed_fields a ia hiaeq
    have hsome : (dlookup init a).isSome := by rw [hiaeq]; rfl
    have hstates : aStates initState.store a = [ia] := by
      show aStates [((-999999999 : ℚ), 0, init)] a = [ia]
      rw [aStates_singleton]
      show (match dlookup init a with | some v => [v] | none => []) = [ia]
      rw [hiaeq]
    refine ⟨0, ((-999999999 : ℚ), 0, init), ?_, ?_, ?_, ?_, ?_, ?_⟩
    · show dlookup (init.map (fun p => (p.1, p.2.time))) a = some (cursorAt 0)
      rw [dlookup_map_val init (fun _ s => s.time) a, hiaeq]
      show some ia.time = some (cursorAt 0)
      rw [hia0, cursorAt]
    · rw [hstates]
      show [ia.time] = 0 :: commitTimes 0
      rw [hia0, commitTimes]
      rfl
    · intro s hs
      rw [hstates, List.mem_singleton] at hs
      subst hs
      refine ⟨rfl, rfl, ?_⟩
      rw [hia0, if_pos rfl, hiastep]
    · show lastOf? (aRecords initState.store a) = some ((-999999999 : ℚ), 0, init)
      show lastOf? (aRecords [((-999999999 : ℚ), 0, init)] a) =
        some ((-999999999 : ℚ), 0, init)
      rw [aRecords_singleton]
      have hhas : hasAgent a ((-999999999 : ℚ), 0, init) = true := by
        rw [hasAgent]
        show (dlookup init a).isSome = true
        exact hsome
      rw [if_pos hhas]
      rfl
    · show (-999999999 : ℚ) ≤ cursorAt 0 - epsilon
      rw [cursorAt, epsilon]
      norm_num
    · show cursorAt 0 - epsilon < 0
      rw [cursorAt, epsilon]
      norm_num

theorem runTicksAux_inv (sq : ℚ → ℚ) (l : List String) (st0 st : SchedState)
    (h0 : Inv st0) (h : runTicksAux sq st0 l = Except.ok st) : Inv st := by
  induction l generalizing st0 with
  | nil =>
    rw [runTicksAux] at h
    exact (Except.ok.inj h) ▸ h0
  | cons a l ih =>
    rw [runTicksAux] at h
    cases htk : tick sq st0 a with
    | error e =>
      rw [htk] at h
      cases h
    | ok st1 =>
      rw [htk] at h
      rcases tick_cases sq st0 a h0 with ⟨st2, hok, hinv⟩ | herr | ⟨herr, _⟩
      · have hst12 : st1 = st2 := Except.ok.inj (htk.symm.trans hok)
        exact ih st1 (by rw [hst12]; exact hinv) h
      · rw [htk] at herr
        cases herr
      · rw [htk] at herr
        cases herr

theorem runTicks_inv (sq : ℚ → ℚ) (l : List String) (st : SchedState)
    (h : runTicks sq l = Except.ok st) : Inv st :=
  runTicksAux_inv sq l initState st inv_init h

theorem runPasses_inv (sq : ℚ → ℚ) (n : Nat) (st : SchedState)
    (h : runPasses sq n = Except.ok st) : Inv st := by
  induction n generalizing st with
  | zero =>
    rw [runPasses] at h
    exact (Except.ok.inj h) ▸ inv_init
  | succ k ih =>
    rw [runPasses] at h
    cases hk : runPasses sq k with
    | error e =>
      rw [hk] at h
      cases h
    | ok st1 =>
      rw [hk] at h
      exact runTicksAux_inv sq agents st1 st (ih st1 hk) h

theorem getitem_eq {α : Type} (s : List (ℚ × ℚ × α)) (key : ℚ) :
    getitem s key =
      if ((s.filter (covers key)).map (fun r => r.2.2)).isEmpty then
        Except.error Err.notFound
      else Except.ok ((s.filter (covers key)).map (fun r => r.2.2)) := rfl

theorem coveringValues_eq {α : Type} (s : List (ℚ × ℚ × α)) (p : ℚ) :
    coveringValues s p = (s.filter (covers p)).map (fun r => r.2.2) := by
  induction s with
  | nil => rfl
  | cons r s ih =>
    rw [coveringValues, List.filterMap_cons, List.filter_cons]
    by_cases h : r.1 ≤ p ∧ p < r.2.1
    · have hc : covers p r = true := decide_eq_true h
      rw [if_pos h, hc]
      simp only [if_true]
      rw [List.map_cons]
      congr 1
    · have hc : covers p r = false := by
        rw [covers]
        exact decide_eq_false h
      rw [if_neg h, hc]
      simp only [Bool.false_eq_true, if_false]
      exact ih

/-- Claim C1: for every store state and query point `p`, `query(p)` returns
exactly the values of the stored records satisfying `low ≤ p < high` in
insertion order, and fails with `NotFoundError` when no record covers `p`;
concretely, after inserting `[0,3) -> "A"` and `[2,4) -> "D"`, querying
`2.5` returns `["A", "D"]`, querying `3.5` returns `["D"]`, and querying
`5` fails. -/
theorem claim1_query {α : Type} (s : List (ℚ × ℚ × α)) (p : ℚ) :
    ((getitem s p = Except.error Err.notFound ↔ coveringValues s p = []) ∧
      (coveringValues s p ≠ [] → getitem s p = Except.ok (coveringValues s p))) ∧
    (setitem ([] : List (ℚ × ℚ × String)) 0 3 ("A") = Except.ok demoA ∧
      setitem demoA 2 4 ("D") = Except.ok demoStore ∧
      getitem demoStore (5/2) = Except.ok ["A", "D"] ∧
      getitem demoStore (7/2) = Except.ok ["D"] ∧
      getitem demoStore 5 = Except.error Err.notFound) := by
  constructor
  · rw [coveringValues_eq, getitem_eq]
    constructor
    · by_cases he : ((s.filter (covers p)).map (fun r => r.2.2)).isEmpty = true
      · rw [if_pos he]
        simp [List.isEmpty_iff.mp he]
      · rw [if_neg he]
        rw [List.isEmpty_iff] at he
        simp [he]
    · intro hne
      rw [if_neg (fun hc => hne (List.isEmpty_iff.mp hc))]
  · refine ⟨?_, ?_, ?_, ?_, ?_⟩
    · rw [setitem_ok_eq ([] : List (ℚ × ℚ × String)) 0 3 ("A") (by norm_num)]
      rfl
    · rw [setitem_ok_eq demoA 2 4 ("D") (by norm_num)]
      rfl
    · norm_num [getitem, demoStore, List.filter_cons, covers]
    · norm_num [getitem, demoStore, List.filter_cons, covers]
    · norm_num [getitem, demoStore, List.filter_cons, covers]

/-- Witness for C1 at the concrete scenario store and point `2.5`. -/
theorem claim1_query_witness :
    coveringValues demoStore (5/2 : ℚ) ≠ [] ∧
    getitem demoStore (5/2 : ℚ) = Except.ok (coveringValues demoStore (5/2 : ℚ)) := by
  have hval : coveringValues demoStore (5/2 : ℚ) = ["A", "D"] := by
    norm_num [coveringValues, demoStore, List.filterMap_cons]
  have h : coveringValues demoStore (5/2 : ℚ) ≠ [] := by
    rw [hval]
    simp
  exact ⟨h, (claim1_query demoStore (5/2 : ℚ)).1.2 h⟩

/-- Claim C2: `insert(low, high, value)` fails with `InvalidRangeError` exactly
when `low ≥ high`, a failing insertion produces no new store, and a
succeeding insertion appends exactly the record `(low, high, value)` at
the end of the sequence. -/
theorem claim2_insert {α : Type} (s : List (ℚ × ℚ × α)) (low high : ℚ) (v : α) :
    (setitem s low high v = Except.error Err.invalidRange ↔ high ≤ low) ∧
    (low < high → setitem s low high v = Except.ok (s ++ [(low, high, v)])) ∧
    (∀ s2, setitem s low high v = Except.ok s2 → s2 = s ++ [(low, high, v)]) := by
  refine ⟨?_, ?_, ?_⟩
  · rw [setitem]
    by_cases h : low < high
    · rw [if_pos h]
      constructor
      · intro hc
        cases hc
      · intro hc
        exact absurd h (not_lt.mpr hc)
    · rw [if_neg h]
      constructor
      · intro _
        exact not_lt.mp h
      · intro _
        rfl
  · intro h
    exact setitem_ok_eq s low high v h
  · intro s2 h2
    rw [setitem] at h2
    by_cases h : low < high
    · rw [if_pos h] at h2
      exact (Except.ok.inj h2).symm
    · rw [if_neg h] at h2
      cases h2

/-- Witness for C2 at a concrete valid insertion. -/
theorem claim2_insert_witness :
    ((0 : ℚ) < 1) ∧
    setitem ([] : List (ℚ × ℚ × String)) 0 1 ("B") =
      Except.ok [((0 : ℚ), (1 : ℚ), "B")] := by
  refine ⟨by norm_num, ?_⟩
  exact (claim2_insert ([] : List (ℚ × ℚ × String)) 0 1 ("B")).2.1 (by norm_num)

/-- Claim C3: `merge` is the left-to-right union starting from the empty mapping
(`merge` literally folds the dict union over the list): at every key the
result holds the value of the last mapping in the sequence that binds the
key, so later mappings overwrite earlier ones and keys absent later are
preserved; in particular `merge [{a: v1}, {a: v2}] = {a: v2}` and
`merge [{a: v1}, {b: v2}] = {a: v1, b: v2}`. -/
theorem claim3_merge {α : Type} (ds : List (Dict α)) (k : String) (v1 v2 : α) :
    dlookup (merge ds) k = lastSome? (fun d => dlookup d k) ds ∧
    merge [[("a", v1)], [("a", v2)]] = [("a", v2)] ∧
    merge [[("a", v1)], [("b", v2)]] = [("a", v1), ("b", v2)] := by
  refine ⟨dlookup_merge ds k, ?_, ?_⟩
  · show dunion (dunion [] [("a", v1)]) [("a", v2)] = [("a", v2)]
    simp [dunion, dlookup]
  · show dunion (dunion [] [("a", v1)]) [("b", v2)] = [("a", v1), ("b", v2)]
    simp [dunion, dlookup]

theorem bodyForce_ok (sq : ℚ → ℚ) (s body : AgentState)
    (hd : sq ((body.x - s.x) * (body.x - s.x) + (body.y - s.y) * (body.y - s.y)) ≠ 0) :
    bodyForce sq s.m s.x s.y body = Except.ok (specForce sq s body) := by
  simp only [bodyForce, specForce]
  generalize hg : sq ((body.x - s.x) * (body.x - s.x) + (body.y - s.y) * (body.y - s.y)) = d
  rw [hg] at hd
  rw [pydiv, if_neg hd]
  dsimp only
  rw [pydiv, if_neg hd, pydiv, if_neg hd]

theorem forceLoop_ok (sq : ℚ → ℚ) (a : String) (s : AgentState)
    (l : List (String × AgentState))
    (hnz : ∀ p ∈ l, p.1 ≠ a →
      sq ((p.2.x - s.x) * (p.2.x - s.x) + (p.2.y - s.y) * (p.2.y - s.y)) ≠ 0)
    (fx fy : ℚ) :
    forceLoop sq a s.m s.x s.y l fx fy =
      Except.ok
        (fx + ((l.filter (fun p => decide (p.1 ≠ a))).map
          (fun p => (specForce sq s p.2).1)).sum,
         fy + ((l.filter (fun p => decide (p.1 ≠ a))).map
          (fun p => (specForce sq s p.2).2)).sum) := by
  induction l generalizing fx fy with
  | nil => simp [forceLoop]
  | cons p rest ih =>
    obtain ⟨bid, body⟩ := p
    rw [forceLoop, List.filter_cons]
    by_cases hb : bid = a
    · rw [if_pos hb]
      have hdec : (decide (((bid, body) : String × AgentState).1 ≠ a)) = false := by
        simp [hb]
      rw [hdec]
      simp only [Bool.false_eq_true, if_false]
      exact ih (fun q hq hqa => hnz q (List.mem_cons_of_mem _ hq) hqa) fx fy
    · rw [if_neg hb]
      have hd := hnz (bid, body) (List.mem_cons_self _ _) hb
      rw [bodyForce_ok sq s body hd]
      dsimp only
      rw [ih (fun q hq hqa => hnz q (List.mem_cons_of_mem _ hq) hqa)]
      have hdec : (decide (((bid, body) : String × AgentState).1 ≠ a)) = true := by
        simp [hb]
      rw [hdec]
      simp only [if_true]
      rw [List.map_cons, List.map_cons, List.sum_cons, List.sum_cons]
      congr 1
      rw [Prod.mk.injEq]
      constructor
      · ring
      · ring

/-- Claim C4: with the propagated agent present in the snapshot, a nonzero mass
and pairwise-distinct positions, `propagate` returns exactly the state that
the specification formulas of §4.3 describe (`specPropagate`, including the
`/ distance * distance` force magnitude, the acceleration division, the
kinematic update with `dt` taken from the input state's `time_step`, the
`1.0` sentinel `time_step`, and unchanged `name` and `m`). -/
theorem claim4_propagate (sq : ℚ → ℚ) (a : String) (u : Dict AgentState)
    (s : AgentState) (hu : dlookup u a = some s) (hm : s.m ≠ 0)
    (hsq : ∀ q : ℚ, 0 < q → sq q ≠ 0)
    (hpos : ∀ p ∈ u, p.1 ≠ a → ¬(p.2.x = s.x ∧ p.2.y = s.y)) :
    propagate sq a u = Except.ok (specPropagate sq a s u) := by
  have hnz : ∀ p ∈ u, p.1 ≠ a →
      sq ((p.2.x - s.x) * (p.2.x - s.x) + (p.2.y - s.y) * (p.2.y - s.y)) ≠ 0 := by
    intro p hp hpa
    apply hsq
    rcases not_and_or.mp (hpos p hp hpa) with hx | hy
    · have hsq1 : 0 < (p.2.x - s.x) * (p.2.x - s.x) :=
        mul_self_pos.mpr (sub_ne_zero.mpr hx)
      nlinarith [mul_self_nonneg (p.2.y - s.y)]
    · have hsq1 : 0 < (p.2.y - s.y) * (p.2.y - s.y) :=
        mul_self_pos.mpr (sub_ne_zero.mpr hy)
      nlinarith [mul_self_nonneg (p.2.x - s.x)]
  rw [propagate_some_eq sq a u s hu, forceLoop_ok sq a s u hnz 0 0]
  dsimp only
  rw [pydiv, if_neg hm]
  rw [pydiv, if_neg hm]
  simp only [specPropagate, others, List.map_map, Function.comp_def, zero_add]

/-- Witness for C4: propagating the seeded Planet against the full seed
snapshot. -/
theorem claim4_propagate_witness :
    dlookup init planetId = some (⟨"Earth", 0, 1/50, 0, 0, -1/100, 0, 1000⟩ : AgentState) ∧
    propagate sqId planetId init =
      Except.ok (specPropagate sqId planetId
        (⟨"Earth", 0, 1/50, 0, 0, -1/100, 0, 1000⟩ : AgentState) init) := by
  have hu : dlookup init planetId =
      some (⟨"Earth", 0, 1/50, 0, 0, -1/100, 0, 1000⟩ : AgentState) := by
    rw [init, dlookup, if_pos rfl]
  refine ⟨hu, claim4_propagate sqId planetId init _ hu (by norm_num)
    (fun q hq => ne_of_gt hq) ?_⟩
  intro p hp hpa
  rw [init] at hp
  simp only [List.mem_cons, List.not_mem_nil, or_false] at hp
  rcases hp with rfl | rfl | rfl
  · exact absurd (hpa rfl) (fun hc => hc)
  · norm_num
  · norm_num

/-- Claim C8: when the snapshot holds another body at exactly the propagated
agent's position, `propagate` fails with the fatal division-by-zero error
instead of returning any state, so nothing reaches the store from such a
call. -/
theorem claim8_singularity (sq : ℚ → ℚ) (a : String) (u : Dict AgentState)
    (s : AgentState) (bid : String) (b : AgentState)
    (hu : dlookup u a = some s) (hsq : sq 0 = 0) (hb : (bid, b) ∈ u) (hbid : bid ≠ a)
    (hx : b.x = s.x) (hy : b.y = s.y) :
    propagate sq a u = Except.error Err.zeroDivision ∧
    ∀ ns, propagate sq a u ≠ Except.ok ns := by
  have hloop : ∀ (l : List (String × AgentState)) (fx fy : ℚ), (bid, b) ∈ l →
      forceLoop sq a s.m s.x s.y l fx fy = Except.error Err.zeroDivision := by
    intro l
    induction l with
    | nil =>
      intro fx fy hmem
      cases hmem
    | cons p rest ih =>
      intro fx fy hmem
      obtain ⟨k, c⟩ := p
      rw [forceLoop]
      by_cases hk : k = a
      · rw [if_pos hk]
        apply ih
        rcases List.mem_cons.mp hmem with heq | hmemr
        · exfalso
          apply hbid
          have hbk : bid = k := congrArg Prod.fst heq
          rw [hbk, hk]
        · exact hmemr
      · rw [if_neg hk]
        rcases List.mem_cons.mp hmem with heq | hmemr
        · injection heq with h1 h2
          subst h2
          have hbf : bodyForce sq s.m s.x s.y b = Except.error Err.zeroDivision := by
            simp only [bodyForce]
            have h0 : sq ((b.x - s.x) * (b.x - s.x) + (b.y - s.y) * (b.y - s.y)) = 0 := by
              rw [hx, hy, sub_self, sub_self]
              rw [show ((0 : ℚ) * 0 + 0 * 0) = 0 by norm_num, hsq]
            rw [h0, pydiv, if_pos rfl]
          rw [hbf]
        · cases hbf : bodyForce sq s.m s.x s.y c with
          | error e =>
            rw [bodyForce_err sq s.m s.x s.y c e hbf]
          | ok g =>
            obtain ⟨gx, gy⟩ := g
            exact ih (fx + gx) (fy + gy) hmemr
  have hmain : propagate sq a u = Except.error Err.zeroDivision := by
    rw [propagate_some_eq sq a u s hu, hloop u 0 0 hb]
  refine ⟨hmain, fun ns hns => ?_⟩
  rw [hmain] at hns
  cases hns

/-- Witness for C8: two bodies seeded at the same position. -/
theorem claim8_singularity_witness :
    dlookup coincU ("bodyA") = some coincA ∧ (("bodyB" : String), coincB) ∈ coincU ∧
    coincB.x = coincA.x ∧ coincB.y = coincA.y ∧
    propagate sqId ("bodyA") coincU = Except.error Err.zeroDivision := by
  have hu : dlookup coincU ("bodyA") = some coincA := by
    rw [coincU, dlookup, if_pos rfl]
  have hb : (("bodyB" : String), coincB) ∈ coincU := by
    rw [coincU]
    simp
  refine ⟨hu, hb, rfl, rfl, ?_⟩
  exact (claim8_singularity sqId ("bodyA") coincU coincA ("bodyB") coincB hu rfl hb
    (by decide) rfl rfl).1

theorem setitem_ok_shape {α : Type} (s : List (ℚ × ℚ × α)) (low high : ℚ) (v : α)
    (s2 : List (ℚ × ℚ × α)) (h : setitem s low high v = Except.ok s2) :
    s2 = s ++ [(low, high, v)] := by
  rw [setitem] at h
  by_cases hlt : low < high
  · rw [if_pos hlt] at h
    exact (Except.ok.inj h).symm
  · rw [if_neg hlt] at h
    cases h

theorem inv_W1 : Inv W1 := by
  refine ⟨rfl, ?_, ?_, ?_⟩
  · intro r hr k hk
    rw [show W1.store =
      [((-999999999 : ℚ), 0, init), ((0 : ℚ), 1/50, [(planetId, p1)])] from rfl] at hr
    simp only [List.mem_cons, List.not_mem_nil, or_false] at hr
    rcases hr with rfl | rfl
    · exact hk
    · simp only [dkeys, List.map_cons, List.map_nil, List.mem_singleton] at hk
      subst hk
      decide
  · intro r hr
    rw [show W1.store =
      [((-999999999 : ℚ), 0, init), ((0 : ℚ), 1/50, [(planetId, p1)])] from rfl] at hr
    simp only [List.mem_cons, List.not_mem_nil, or_false] at hr
    rcases hr with rfl | rfl
    · norm_num
    · norm_num
  · intro a ia hiaeq
    rcases init_lookup_cases a ia hiaeq with ⟨rfl, rfl⟩ | ⟨rfl, rfl⟩ | ⟨rfl, rfl⟩
    · refine ⟨1, ((0 : ℚ), 1/50, [(planetId, p1)]), ?_, ?_, ?_, ?_, ?_, ?_⟩
      · show dlookup W1.times planetId = some (cursorAt 1)
        rw [show W1.times = [(planetId, (1/50 : ℚ)), (satelliteId, 0), (sunId, 0)] from rfl,
          dlookup, if_pos rfl]
        norm_num [cursorAt]
      · show (aStates W1.store planetId).map AgentState.time = 0 :: commitTimes 1
        simp [aStates, W1, List.filterMap_cons, dlookup, init, planetId, satelliteId,
          sunId, p1, commitTimes, List.range_succ]
      · intro s hs
        rw [show aStates W1.store planetId =
            [(⟨"Earth", 0, 1/50, 0, 0, -1/100, 0, 1000⟩ : AgentState), p1] from by
          simp [aStates, W1, List.filterMap_cons, dlookup, init, planetId,
            satelliteId, sunId]] at hs
        simp only [List.mem_cons, List.not_mem_nil, or_false] at hs
        rcases hs with rfl | rfl
        · norm_num [p1]
        · norm_num [p1]
      · show lastOf? (aRecords W1.store planetId) =
          some ((0 : ℚ), 1/50, [(planetId, p1)])
        rw [show aRecords W1.store planetId =
            [((-999999999 : ℚ), 0, init), ((0 : ℚ), 1/50, [(planetId, p1)])] from by
          simp [aRecords, W1, List.filter_cons, hasAgent, dlookup, init, planetId,
            satelliteId, sunId]]
        rfl
      · show (0 : ℚ) ≤ cursorAt 1 - epsilon
        norm_num [cursorAt, epsilon]
      · show cursorAt 1 - epsilon < ((0 : ℚ), (1/50 : ℚ), [(planetId, p1)]).2.1
        norm_num [cursorAt, epsilon]
    · refine ⟨0, ((-999999999 : ℚ), 0, init), ?_, ?_, ?_, ?_, ?_, ?_⟩
      · show dlookup W1.times satelliteId = some (cursorAt 0)
        rw [show W1.times = [(planetId, (1/50 : ℚ)), (satelliteId, 0), (sunId, 0)] from rfl]
        rw [dlookup, if_neg (by decide), dlookup, if_pos rfl]
        rfl
      · show (aStates W1.store satelliteId).map AgentState.time = 0 :: commitTimes 0
        simp [aStates, W1, List.filterMap_cons, dlookup, init, planetId, satelliteId,
          sunId, p1, commitTimes]
      · intro s hs
        rw [show aStates W1.store satelliteId =
            [(⟨"Moon", 0, 1/50, 0, 5, 1/100, -1/100, 1000⟩ : AgentState)] from by
          simp [aStates, W1, List.filterMap_cons, dlookup, init, planetId,
            satelliteId, sunId]] at hs
        simp only [List.mem_singleton] at hs
        subst hs
        norm_num
      · show lastOf? (aRecords W1.store satelliteId) =
          some ((-999999999 : ℚ), 0, init)
        rw [show aRecords W1.store satelliteId =
            [((-999999999 : ℚ), 0, init)] from by
          simp [aRecords, W1, List.filter_cons, hasAgent, dlookup, init, planetId,
            satelliteId, sunId]]
        rfl
      · show (-999999999 : ℚ) ≤ cursorAt 0 - epsilon
        norm_num [cursorAt, epsilon]
      · show cursorAt 0 - epsilon < ((-999999999 : ℚ), (0 : ℚ), init).2.1
        norm_num [cursorAt, epsilon]
    · refine ⟨0, ((-999999999 : ℚ), 0, init), ?_, ?_, ?_, ?_, ?_, ?_⟩
      · show dlookup W1.times sunId = some (cursorAt 0)
        rw [show W1.times = [(planetId, (1/50 : ℚ)), (satelliteId, 0), (sunId, 0)] from rfl]
        rw [dlookup, if_neg (by decide), dlookup, if_neg (by decide), dlookup, if_pos rfl]
        rfl
      · show (aStates W1.store sunId).map AgentState.time = 0 :: commitTimes 0
        simp [aStates, W1, List.filterMap_cons, dlookup, init, planetId, satelliteId,
          sunId, p1, commitTimes]
      · intro s hs
        rw [show aStates W1.store sunId =
            [(⟨"Sun", 0, 1/50, 10, 5/2, 0, 0, 10000⟩ : AgentState)] from by
          simp [aStates, W1, List.filterMap_cons, dlookup, init, planetId,
            satelliteId, sunId]] at hs
        simp only [List.mem_singleton] at hs
        subst hs
        norm_num
      · show lastOf? (aRecords W1.store sunId) =
          some ((-999999999 : ℚ), 0, init)
        rw [show aRecords W1.store sunId =
            [((-999999999 : ℚ), 0, init)] from by
          simp [aRecords, W1, List.filter_cons, hasAgent, dlookup, init, planetId,
            satelliteId, sunId]]
        rfl
      · show (-999999999 : ℚ) ≤ cursorAt 0 - epsilon
        norm_num [cursorAt, epsilon]
      · show cursorAt 0 - epsilon < ((-999999999 : ℚ), (0 : ℚ), init).2.1
        norm_num [cursorAt, epsilon]

/-- Claim C5: from a reachable (invariant-satisfying) state, a completing tick of
agent `a` with cursor `t` queries the store at `t - 0.001` and merges the
result into a snapshot; the agent advances exactly when the snapshot's key
set contains every known agent id, and then the only store change is one
appended interval `(t, newState.time)` whose value maps only `a` to the
propagated state, with `a`'s cursor set to `newState.time`; otherwise the
whole scheduler state is unchanged. -/
theorem claim5_tick (sq : ℚ → ℚ) (st : SchedState) (a : String) (t : ℚ)
    (st2 : SchedState) (hInv : Inv st) (ht : dlookup st.times a = some t)
    (hok : tick sq st a = Except.ok st2) :
    (subKeys (dkeys init) (dkeys (read st.store (t - epsilon))) = true →
      ∃ ns, propagate sq a (read st.store (t - epsilon)) = Except.ok ns ∧
        st2.store = st.store ++ [(t, ns.time, [(a, ns)])] ∧
        st2.times = dset st.times a ns.time ∧
        dlookup st2.times a = some ns.time) ∧
    (subKeys (dkeys init) (dkeys (read st.store (t - epsilon))) = false → st2 = st) := by
  obtain ⟨htimes, hsub, hrange, hagent⟩ := hInv
  have hKsub : ∀ k ∈ dkeys (read st.store (t - epsilon)), k ∈ dkeys init :=
    keys_read_sub st.store (t - epsilon) hsub
  have hgateEq : eqKeys (dkeys (read st.store (t - epsilon))) (dkeys init) =
      subKeys (dkeys init) (dkeys (read st.store (t - epsilon))) :=
    eqKeys_of_sub _ _ hKsub
  rw [tick_some_eq sq st a t ht, hgateEq] at hok
  constructor
  · intro hgate
    rw [if_pos hgate] at hok
    cases hp : propagate sq a (read st.store (t - epsilon)) with
    | error e =>
      rw [hp] at hok
      cases hok
    | ok ns =>
      rw [hp] at hok
      dsimp only at hok
      cases hset : setitem st.store t ns.time [(a, ns)] with
      | error e =>
        rw [hset] at hok
        cases hok
      | ok store2 =>
        rw [hset] at hok
        dsimp only at hok
        have h2 : st2 = ⟨store2, dset st.times a ns.time⟩ := (Except.ok.inj hok).symm
        have hshape := setitem_ok_shape st.store t ns.time ([(a, ns)]) store2 hset
        refine ⟨ns, rfl, ?_, ?_, ?_⟩
        · rw [h2]
          exact hshape
        · rw [h2]
        · rw [h2]
          show dlookup (dset st.times a ns.time) a = some ns.time
          exact dlookup_dset_self st.times a ns.time (by rw [ht]; rfl)
  · intro hgate
    rw [if_neg (by rw [hgate]; exact Bool.false_ne_true)] at hok
    exact (Except.ok.inj hok).symm

/-- Witness for C5: in state `W1` Planet's snapshot at its lookback point
contains only Planet, so its tick is blocked and changes nothing. -/
theorem claim5_tick_witness :
    Inv W1 ∧ dlookup W1.times planetId = some (1/50) ∧
    tick sqId W1 planetId = Except.ok W1 ∧
    subKeys (dkeys init) (dkeys (read W1.store (1/50 - epsilon))) = false ∧
    W1 = W1 := by
  have ht : dlookup W1.times planetId = some (1/50) := by
    rw [show W1.times = [(planetId, (1/50 : ℚ)), (satelliteId, 0), (sunId, 0)] from rfl,
      dlookup, if_pos rfl]
  have hread : read W1.store (1/50 - epsilon) = [(planetId, p1)] := by
    simp [read, getitem, W1, epsilon, List.filter_cons, covers, merge, dunion, dlookup]
    norm_num [dunion, dlookup]
  have hgatebool : eqKeys (dkeys [(planetId, p1)]) (dkeys init) = false := by decide
  have hgate : subKeys (dkeys init) (dkeys (read W1.store (1/50 - epsilon))) = false := by
    rw [hread]
    decide
  have htick : tick sqId W1 planetId = Except.ok W1 := by
    rw [tick_some_eq sqId W1 planetId (1/50) ht, hread,
      if_neg (by rw [hgatebool]; exact Bool.false_ne_true)]
  exact ⟨inv_W1, ht, htick, hgate,
    (claim5_tick sqId W1 planetId (1/50) W1 inv_W1 ht htick).2 hgate⟩

theorem runTicksAux_append (sq : ℚ → ℚ) (st0 : SchedState) (l : List String) (b : String) :
    runTicksAux sq st0 (l ++ [b]) =
      match runTicksAux sq st0 l with
      | Except.ok st => tick sq st b
      | Except.error e => Except.error e := by
  induction l generalizing st0 with
  | nil =>
    rw [List.nil_append]
    show runTicksAux sq st0 [b] = tick sq st0 b
    rw [runTicksAux]
    cases htk : tick sq st0 b with
    | error e => rfl
    | ok st2 => rfl
  | cons a l ih =>
    rw [List.cons_append, runTicksAux, runTicksAux]
    cases htk : tick sq st0 a with
    | error e => rfl
    | ok st2 => exact ih st2

/-- Claim C6: throughout every run, the stored states of each agent have strictly
increasing `time` in commit order, every stored interval satisfies
`low < high`, and no tick of the scheduler ever fails with
`InvalidRangeError`. -/
theorem claim6_monotone (sq : ℚ → ℚ) (l : List String) (st : SchedState)
    (h : runTicks sq l = Except.ok st) :
    (∀ a, List.Chain' (fun p q : ℚ => p < q) ((aStates st.store a).map AgentState.time)) ∧
    (∀ r ∈ st.store, r.1 < r.2.1) ∧
    (∀ b, runTicks sq (l ++ [b]) ≠ Except.error Err.invalidRange) := by
  obtain ⟨htimes, hsub, hrange, hagent⟩ := runTicks_inv sq l st h
  refine ⟨?_, hrange, ?_⟩
  · intro a
    by_cases hmem : a ∈ dkeys init
    · obtain ⟨ia, hiaeq⟩ :=
        Option.isSome_iff_exists.mp ((dlookup_isSome_iff init a).mpr hmem)
      obtain ⟨n, lr, _, htEq, _, _, _, _⟩ := hagent a ia hiaeq
      rw [htEq]
      exact chain_commitTimes n
    · have hnil : aStates st.store a = [] := by
        rw [List.eq_nil_iff_forall_not_mem]
        intro s hs
        obtain ⟨r, hr, hra⟩ := mem_aStates st.store a s hs
        apply hmem
        apply hsub r hr
        rw [← dlookup_isSome_iff, hra]
        rfl
      rw [hnil]
      exact List.chain'_nil
  · intro b
    rw [runTicks, runTicksAux_append,
      show runTicksAux sq initState l = Except.ok st from h]
    show tick sq st b ≠ Except.error Err.invalidRange
    rcases tick_cases sq st b ⟨htimes, hsub, hrange, hagent⟩ with
      ⟨st2, hok, _⟩ | herr | ⟨herr, _⟩
    · rw [hok]
      intro hc
      cases hc
    · rw [herr]
      intro hc
      exact absurd (Except.error.inj hc) (by decide)
    · rw [herr]
      intro hc
      exact absurd (Except.error.inj hc) (by decide)

/-- Witness for C6 at the seeded initial state (the empty run). -/
theorem claim6_monotone_witness :
    runTicks sqId [] = Except.ok initState ∧
    (∀ r ∈ initState.store, r.1 < r.2.1) := by
  exact ⟨rfl, (claim6_monotone sqId [] initState rfl).2.1⟩

/-- Claim C7: throughout every run, every state stored for an agent carries
exactly the mass (and name) of that agent's seed state. -/
theorem claim7_mass (sq : ℚ → ℚ) (l : List String) (st : SchedState)
    (h : runTicks sq l = Except.ok st) :
    ∀ a s, s ∈ aStates st.store a →
      ∃ ia, dlookup init a = some ia ∧ s.m = ia.m ∧ s.name = ia.name := by
  obtain ⟨htimes, hsub, hrange, hagent⟩ := runTicks_inv sq l st h
  intro a s hs
  obtain ⟨r, hr, hra⟩ := mem_aStates st.store a s hs
  have hmem : a ∈ dkeys init := by
    apply hsub r hr
    rw [← dlookup_isSome_iff, hra]
    rfl
  obtain ⟨ia, hiaeq⟩ :=
    Option.isSome_iff_exists.mp ((dlookup_isSome_iff init a).mpr hmem)
  obtain ⟨n, lr, _, _, hflds, _, _, _⟩ := hagent a ia hiaeq
  obtain ⟨hm, hname, _⟩ := hflds s hs
  exact ⟨ia, hiaeq, hm, hname⟩

/-- Witness for C7: the Planet seed state in the seeded initial store. -/
theorem claim7_mass_witness :
    runTicks sqId [] = Except.ok initState ∧
    (⟨"Earth", 0, 1/50, 0, 0, -1/100, 0, 1000⟩ : AgentState) ∈
      aStates initState.store planetId ∧
    ∃ ia, dlookup init planetId = some ia ∧
      (⟨"Earth", 0, 1/50, 0, 0, -1/100, 0, 1000⟩ : AgentState).m = ia.m ∧
      (⟨"Earth", 0, 1/50, 0, 0, -1/100, 0, 1000⟩ : AgentState).name = ia.name := by
  have hmem : (⟨"Earth", 0, 1/50, 0, 0, -1/100, 0, 1000⟩ : AgentState) ∈
      aStates initState.store planetId := by
    simp [aStates, initState, List.filterMap_cons, dlookup, init, planetId,
      satelliteId, sunId]
  exact ⟨rfl, hmem, claim7_mass sqId [] initState rfl planetId _ hmem⟩

theorem tick_store_growth (sq : ℚ → ℚ) (st : SchedState) (a : String) (st2 : SchedState)
    (h : tick sq st a = Except.ok st2) :
    st2 = st ∨ st2.store.length = st.store.length + 1 := by
  cases ht : dlookup st.times a with
  | none =>
    rw [tick_none_eq sq st a ht] at h
    cases h
  | some t =>
    rw [tick_some_eq sq st a t ht] at h
    by_cases hg : eqKeys (dkeys (read st.store (t - epsilon))) (dkeys init) = true
    · rw [if_pos hg] at h
      cases hp : propagate sq a (read st.store (t - epsilon)) with
      | error e =>
        rw [hp] at h
        cases h
      | ok ns =>
        rw [hp] at h
        dsimp only at h
        cases hset : setitem st.store t ns.time [(a, ns)] with
        | error e =>
          rw [hset] at h
          cases h
        | ok store2 =>
          rw [hset] at h
          dsimp only at h
          right
          have h2 : st2 = ⟨store2, dset st.times a ns.time⟩ := (Except.ok.inj h).symm
          have hshape := setitem_ok_shape st.store t ns.time ([(a, ns)]) store2 hset
          rw [h2]
          show store2.length = st.store.length + 1
          rw [hshape, List.length_append]
          rfl
    · rw [if_neg hg] at h
      left
      exact (Except.ok.inj h).symm

theorem runTicksAux_length (sq : ℚ → ℚ) (l : List String) (st0 st : SchedState)
    (h : runTicksAux sq st0 l = Except.ok st) :
    st.store.length ≤ st0.store.length + l.length := by
  induction l generalizing st0 with
  | nil =>
    rw [runTicksAux] at h
    rw [← Except.ok.inj h]
    simp
  | cons a l ih =>
    rw [runTicksAux] at h
    cases htk : tick sq st0 a with
    | error e =>
      rw [htk] at h
      cases h
    | ok st1 =>
      rw [htk] at h
      have hle := ih st1 h
      have hlen : (a :: l).length = l.length + 1 := rfl
      rcases tick_store_growth sq st0 a st1 htk with rfl | hgrow
      · omega
      · omega

theorem runPasses_length (sq : ℚ → ℚ) (n : Nat) (st : SchedState)
    (h : runPasses sq n = Except.ok st) :
    st.store.length ≤ 1 + n * agents.length := by
  induction n generalizing st with
  | zero =>
    rw [runPasses] at h
    rw [← Except.ok.inj h]
    have hlen : initState.store.length = 1 := rfl
    omega
  | succ k ih =>
    rw [runPasses] at h
    cases hk : runPasses sq k with
    | error e =>
      rw [hk] at h
      cases h
    | ok st1 =>
      rw [hk] at h
      have h1 := ih st1 hk
      have h2 := runTicksAux_length sq agents st1 st h
      have hk1 : (k + 1) * agents.length = k * agents.length + agents.length :=
        Nat.succ_mul k agents.length
      omega

/-- Claim C9: `n` scheduling passes over the `k = 3` agents grow the store by at
most `n * k` records beyond the single seed record, and a completing tick
either leaves the state unchanged (blocked) or adds exactly one record. -/
theorem claim9_budget (sq : ℚ → ℚ) (n : Nat) (st : SchedState)
    (h : runPasses sq n = Except.ok st) :
    st.store.length ≤ 1 + n * agents.length ∧
    (∀ a st2, tick sq st a = Except.ok st2 →
      st2 = st ∨ st2.store.length = st.store.length + 1) :=
  ⟨runPasses_length sq n st h, fun a st2 htk => tick_store_growth sq st a st2 htk⟩

/-- Witness for C9 at zero passes. -/
theorem claim9_budget_witness :
    runPasses sqId 0 = Except.ok initState ∧
    initState.store.length ≤ 1 + 0 * agents.length :=
  ⟨rfl, (claim9_budget sqId 0 initState rfl).1⟩

/-- Claim C10: throughout every run, each agent's stored times are exactly the
seed time followed by one advance of the configured seed `time_step` and
then an advance of the sentinel `1.0` per further commit, because every
propagation after the first takes `dt` from the `time_step` (= 1.0) written
by the previous propagation. -/
theorem claim10_sentinel (sq : ℚ → ℚ) (l : List String) (st : SchedState)
    (h : runTicks sq l = Except.ok st) :
    ∀ a ia, dlookup init a = some ia →
      ∃ n, (aStates st.store a).map AgentState.time =
        ia.time ::
          (List.range n).map (fun i : Nat => ia.time + ia.time_step + (i : ℚ)) := by
  obtain ⟨_, _, _, hagent⟩ := runTicks_inv sq l st h
  intro a ia hiaeq
  obtain ⟨n, lr, _, htEq, _, _, _, _⟩ := hagent a ia hiaeq
  obtain ⟨hia0, hiastep, _⟩ := init_seed_fields a ia hiaeq
  refine ⟨n, ?_⟩
  rw [htEq, hia0, hiastep, commitTimes]
  congr 1
  apply List.map_congr_left
  intro i _
  ring

/-- Witness for C10: Planet in the seeded initial state. -/
theorem claim10_sentinel_witness :
    runTicks sqId [] = Except.ok initState ∧
    dlookup init planetId =
      some (⟨"Earth", 0, 1/50, 0, 0, -1/100, 0, 1000⟩ : AgentState) ∧
    ∃ n, (aStates initState.store planetId).map AgentState.time =
      (⟨"Earth", 0, 1/50, 0, 0, -1/100, 0, 1000⟩ : AgentState).time ::
        (List.range n).map (fun i : Nat =>
          (⟨"Earth", 0, 1/50, 0, 0, -1/100, 0, 1000⟩ : AgentState).time +
            (⟨"Earth", 0, 1/50, 0, 0, -1/100, 0, 1000⟩ : AgentState).time_step +
            (i : ℚ)) := by
  have hlookup : dlookup init planetId =
      some (⟨"Earth", 0, 1/50, 0, 0, -1/100, 0, 1000⟩ : AgentState) := by
    rw [init, dlookup, if_pos rfl]
  exact ⟨rfl, hlookup, claim10_sentinel sqId [] initState rfl planetId _ hlookup⟩

end Sim
